import Mathlib

/-! Musicvisualizer: a verification development for `app.go`.

The program is a terminal spectrum visualizer written against the bubbletea
model/update/view architecture.  This file embeds

* the dispatcher (`model`, `Init`, `Update`) as pure functions on a closed
  message type and a symbolic command type,
* the renderer's bar loop of `View` (clamping, colour index, bar text,
  mirroring) as integer and list code,
* the analyser inside `listenAudio` (bucket edges, index clamping, the
  averaging loop, boost and truncation),
* the title lookup of `checkMusic`.

Conventions of the embedding.

* Go `int` is `Int`.  No arithmetic of the program on `int` can leave the
  64-bit range for the values it is applied to (indices bounded by a slice
  length, heights clamped to `[0, 15]` before they are multiplied by 8).
* Go `float64` is `Real`: arithmetic is exact, rounding, infinities and NaN
  are not represented.  The conversion `int(x)` is truncation toward zero, as
  in Go for values inside the `int` range (outside it Go's result depends on
  the platform and is not represented).  A height computed in exact arithmetic
  can differ from the `float64` one where a product is not representable
  (`0.1` is not); it is the same where every intermediate value is, as for a
  silent frame.  Statements about indices are proved for arbitrary computed
  indices, and the averaging loop is embedded for an arbitrary addition, so
  they do not depend on this reading.
* A run-time panic (index out of range) is `none` in an `Option` result.
* Library calls whose code is not part of the program (the Fourier
  transform, the audio stream, the external title commands) are inputs of the
  embedded functions: the transform is a function parameter, the outcome of
  `stream.Read` and of `cmd.Output` are arguments.
-/

namespace Musicvisualizer

/-! ## Constants (`app.go`, lines 19-24 and 49-58) -/

def barCount : Nat := 32
def maxHeight : Int := 15
def sampleRate : Nat := 44100
def bufferSize : Nat := 1024

def colorPalette : List String :=
  ["#FFF7ED", "#FFEDD5", "#FED7AA", "#FDBA74", "#FB923C", "#F97316", "#EA580C", "#C2410C"]

/-! ## Data model (`app.go`, lines 61-83) -/

/-- Go's `model` struct.  `stream` and `buffer` are reference values in Go (a
pointer and a slice header); they are represented by handles.  `currentTime`
is an abstract instant. -/
structure model where
  width : Int
  height : Int
  mediaTitle : String
  currentTime : Nat
  stream : Nat
  buffer : Nat
  heights : List Int
  deriving DecidableEq, Repr

/-- The messages `Update` can receive (`tea.Msg` is an open interface; every
dynamic type the `switch` does not name is `other`). -/
inductive Msg where
  | WindowSizeMsg (Width Height : Int)
  | KeyMsg (key : String)
  | audioMsg (heights : List Int)
  | titleMsg (title : String)
  | tickMsg (t : Nat)
  | other (tag : Nat)
  deriving DecidableEq, Repr

/-- The commands the program builds: `nil`, `tea.Quit`, the three source
commands and `tea.Batch`. -/
inductive Cmd where
  | nil
  | Quit
  | listenAudio (stream buffer : Nat)
  | checkMusic
  | tickClock
  | Batch (cmds : List Cmd)
  deriving Repr

/-- Go's `initialModel`; `now` is the value of `time.Now()`. -/
def initialModel (stream buffer now : Nat) : model :=
  { width := 0, height := 0, mediaTitle := "Waiting for media...", currentTime := now,
    stream := stream, buffer := buffer, heights := List.replicate barCount 0 }

/-- Go's `model.Init`. -/
def Init (m : model) : Cmd :=
  Cmd.Batch [Cmd.listenAudio m.stream m.buffer, Cmd.checkMusic, Cmd.tickClock]

/-- Go's `model.Update`. -/
def Update (m : model) (msg : Msg) : model × Cmd :=
  match msg with
  | Msg.WindowSizeMsg w h => ({ m with width := w, height := h }, Cmd.nil)
  | Msg.KeyMsg key =>
      if key = "q" ∨ key = "ctrl+c" ∨ key = "esc" then (m, Cmd.Quit) else (m, Cmd.nil)
  | Msg.audioMsg hs =>
      let m1 := { m with heights := hs }
      (m1, Cmd.listenAudio m1.stream m1.buffer)
  | Msg.titleMsg t => ({ m with mediaTitle := t }, Cmd.checkMusic)
  | Msg.tickMsg t => ({ m with currentTime := t }, Cmd.tickClock)
  | Msg.other _ => (m, Cmd.nil)

/-! ## The reactive loop

The bubbletea runtime starts the command returned by `Init`, and for every
message it hands to `Update` it starts the command `Update` returns.  A
`Batch` starts each of its members, `nil` starts nothing. -/

mutual
/-- The atomic commands a command starts. -/
def launch : Cmd → List Cmd
  | Cmd.nil => []
  | Cmd.Batch cs => launchAll cs
  | Cmd.Quit => [Cmd.Quit]
  | Cmd.listenAudio s b => [Cmd.listenAudio s b]
  | Cmd.checkMusic => [Cmd.checkMusic]
  | Cmd.tickClock => [Cmd.tickClock]
/-- The atomic commands started by the members of a batch. -/
def launchAll : List Cmd → List Cmd
  | [] => []
  | c :: cs => launch c ++ launchAll cs
end

/-- The message a completed source command hands to the dispatcher:
`listenAudio` resolves to an `audioMsg`, `checkMusic` to a `titleMsg`,
`tickClock` to a `tickMsg`.  `Quit` ends the loop and resolves to no message
for `Update`. -/
inductive Yields : Cmd → Msg → Prop where
  | audio (s b : Nat) (hs : List Int) : Yields (Cmd.listenAudio s b) (Msg.audioMsg hs)
  | title (t : String) : Yields Cmd.checkMusic (Msg.titleMsg t)
  | tick (t : Nat) : Yields Cmd.tickClock (Msg.tickMsg t)

/-- Messages that come from the terminal, not from a command. -/
def isInput : Msg → Bool
  | Msg.WindowSizeMsg _ _ => true
  | Msg.KeyMsg _ => true
  | _ => false

/-- State of the loop: the model and the commands that are outstanding. -/
structure Loop where
  m : model
  pending : List Cmd

/-- The loop right after start-up. -/
def Loop.start (m : model) : Loop := { m := m, pending := launch (Init m) }

/-- One step of the loop: an outstanding command resolves, its message is given
to `Update` and the returned command is started; or the terminal delivers an
input message. -/
inductive Step : Loop → Loop → Prop where
  | resolve (m : model) (before after : List Cmd) (c : Cmd) (msg : Msg) :
      Yields c msg →
      Step { m := m, pending := before ++ c :: after }
        { m := (Update m msg).1, pending := before ++ after ++ launch (Update m msg).2 }
  | input (m : model) (pending : List Cmd) (msg : Msg) :
      isInput msg = true →
      Step { m := m, pending := pending }
        { m := (Update m msg).1, pending := pending ++ launch (Update m msg).2 }

/-- States the loop can reach from start-up. -/
inductive Reachable : Loop → Prop where
  | start (m : model) : Reachable (Loop.start m)
  | step (s t : Loop) : Reachable s → Step s t → Reachable t

def isCapture : Cmd → Bool
  | Cmd.listenAudio _ _ => true
  | _ => false

def isTitlePoll : Cmd → Bool
  | Cmd.checkMusic => true
  | _ => false

def isClock : Cmd → Bool
  | Cmd.tickClock => true
  | _ => false

/-! ## Renderer: the bar loop of `View` (`app.go`, lines 137-167) -/

/-- The two clamping statements at the head of the loop body. -/
def clampHeight (h : Int) : Int :=
  let h := if h < 0 then 0 else h
  if h > maxHeight then maxHeight else h

/-- The palette index before the bound check: `(h * len(colorPalette)) / maxHeight`
under the test `maxHeight > 0`, with Go's truncating integer division. -/
def scaledIndex (h : Int) : Int :=
  if maxHeight > 0 then Int.tdiv (h * (colorPalette.length : Int)) maxHeight else 0

/-- The palette index after the bound check. -/
def colorIndex (h : Int) : Int :=
  let colorIndex := scaledIndex h
  if colorIndex ≥ (colorPalette.length : Int) then (colorPalette.length : Int) - 1 else colorIndex

/-- Indexing a slice with an `int`: out of range is a panic. -/
def index {α : Type} (xs : List α) (j : Int) : Option α :=
  if j < 0 then none else xs[j.toNat]?

/-- Go's `strings.Repeat`, which panics on a negative count. -/
def stringsRepeat (s : List Char) (count : Int) : Option (List Char) :=
  if count < 0 then none else some (List.replicate count.toNat s).flatten

/-- Go's `strings.TrimSuffix` for a one-character suffix. -/
def trimSuffixChar (s : List Char) (c : Char) : List Char :=
  if s.getLast? = some c then s.dropLast else s

/-- What is handed to the styling engine for one bar: the foreground colour of
the style and the string it renders. -/
structure Bar where
  color : String
  text : String
  deriving DecidableEq, Repr

/-- The body of the loop up to `renderedBar`, for one raw height. -/
def renderBar (h : Int) : Option Bar :=
  let h := clampHeight h
  match index colorPalette (colorIndex h), stringsRepeat ['█', '\n'] h with
  | some barColor, some barStr => some { color := barColor, text := String.mk (trimSuffixChar barStr '\n') }
  | _, _ => none

/-- One iteration of the loop on the pair `(rightBars, leftBars)`. -/
def barStep (acc : Option (List Bar × List Bar)) (h : Int) : Option (List Bar × List Bar) :=
  match acc with
  | none => none
  | some (rightBars, leftBars) =>
    match renderBar h with
    | none => none
    | some renderedBar => some (rightBars ++ [renderedBar], [renderedBar] ++ leftBars)

/-- The loop over `m.heights`. -/
def barLoop (heights : List Int) : Option (List Bar × List Bar) :=
  heights.foldl barStep (some ([], []))

/-- The slice `combinedBars := append(leftBars, rightBars...)`. -/
def combinedBars (heights : List Int) : Option (List Bar) :=
  match barLoop heights with
  | none => none
  | some (rightBars, leftBars) => some (leftBars ++ rightBars)

/-- Number of filled cells of a bar. -/
def filledCells (b : Bar) : Nat := b.text.data.count '█'

/-! ## Title lookup: the function inside `checkMusic` (`app.go`, lines 241-278) -/

/-- Go's `unicode.IsSpace`. -/
def isSpace (c : Char) : Bool :=
  let n := c.toNat
  decide (n = 0x09 ∨ n = 0x0A ∨ n = 0x0B ∨ n = 0x0C ∨ n = 0x0D ∨ n = 0x20 ∨ n = 0x85 ∨ n = 0xA0 ∨
    n = 0x1680 ∨ (0x2000 ≤ n ∧ n ≤ 0x200A) ∨ n = 0x2028 ∨ n = 0x2029 ∨ n = 0x202F ∨
    n = 0x205F ∨ n = 0x3000)

/-- Go's `strings.TrimSpace`. -/
def TrimSpace (s : String) : String :=
  String.mk ((s.data.dropWhile isSpace).reverse.dropWhile isSpace).reverse

/-- The callback of `checkMusic`.  `goos` is `runtime.GOOS`; `err` tells whether
`cmd.Output()` returned an error and `out` is the output it returned. -/
def checkMusic (goos : String) (err : Bool) (out : String) : Msg :=
  if goos = "darwin" ∨ goos = "linux" ∨ goos = "windows" then
    if err = true ∨ out.utf8ByteSize = 0 then Msg.titleMsg "No Media Found"
    else Msg.titleMsg (TrimSpace out)
  else Msg.titleMsg "OS Not Supported"

/-- The callback of `tickClock`. -/
def tickClock (t : Nat) : Msg := Msg.tickMsg t

/-! ## Analyser: the function inside `listenAudio` (`app.go`, lines 188-237) -/

noncomputable def minFreq : ℝ := 20
noncomputable def maxFreq : ℝ := 8000
noncomputable def logBase : ℝ := Real.log (maxFreq / minFreq)

/-- Lower edge of bucket `i`, line 207. -/
noncomputable def startFreq (i : ℕ) : ℝ :=
  minFreq * Real.exp (logBase * (i : ℝ) / (barCount : ℝ))

/-- Upper edge of bucket `i`, line 208. -/
noncomputable def endFreq (i : ℕ) : ℝ :=
  minFreq * Real.exp (logBase * ((i + 1 : ℕ) : ℝ) / (barCount : ℝ))

/-- Go's conversion `int(x)` of a `float64` inside the `int` range: the fraction
is discarded. -/
noncomputable def toInt (x : ℝ) : ℤ := if 0 ≤ x then ⌊x⌋ else ⌈x⌉

/-- The index computed from a frequency on lines 210-211, for `n = len(coeffs)`. -/
noncomputable def rawIndex (freq : ℝ) (n : ℕ) : ℤ :=
  toInt (freq * (n : ℝ) * 2 / (sampleRate : ℝ))

/-- The three `if` statements of lines 213-221 on `(startIndex, endIndex)`,
for `n = len(coeffs)`. -/
def clampIndices (n : ℤ) (startIndex endIndex : ℤ) : ℤ × ℤ :=
  let startIndex := if startIndex ≥ n then n - 1 else startIndex
  let endIndex := if endIndex ≥ n then n - 1 else endIndex
  let endIndex := if endIndex ≤ startIndex then startIndex + 1 else endIndex
  (startIndex, endIndex)

/-- The final `(startIndex, endIndex)` of bucket `i` for `n` coefficients. -/
noncomputable def bucketIndices (n : ℕ) (i : ℕ) : ℤ × ℤ :=
  clampIndices (n : ℤ) (rawIndex (startFreq i) n) (rawIndex (endFreq i) n)

/-- The loop of lines 224-228 with `iters` iterations left, loop variable `j`
and accumulator `magnitude`.  The loop `for j := s; j < e; j++` runs
`(e - s).toNat` times.  `F` is the type of the accumulator, `add` its addition
and `mag` the function `cmplx.Abs`: the loop is the same whatever these two
compute. -/
def sumLoop {F : Type} (add : F → F → F) (mag : ℂ → F) (coeffs : List ℂ) : ℕ → ℤ → F → Option F
  | 0, _, magnitude => some magnitude
  | iters + 1, j, magnitude =>
    if j < (coeffs.length : ℤ) then
      match index coeffs j with
      | none => none
      | some c => sumLoop add mag coeffs iters (j + 1) (add magnitude (mag c))
    else sumLoop add mag coeffs iters (j + 1) magnitude

/-- The variable `magnitude` after the loop, for the index range `[s, e)`, in
exact arithmetic. -/
noncomputable def bucketMagnitude (coeffs : List ℂ) (s e : ℤ) : Option ℝ :=
  sumLoop (fun x y => x + y) (fun c => Complex.abs c) coeffs (e - s).toNat s 0

/-- The body of the loop over buckets (lines 207-233): the raw height of bucket
`i`, in exact arithmetic (`0.1` is one tenth). -/
noncomputable def bucketHeight (coeffs : List ℂ) (i : ℕ) : Option ℤ :=
  let startIndex := (bucketIndices coeffs.length i).1
  let endIndex := (bucketIndices coeffs.length i).2
  match bucketMagnitude coeffs startIndex endIndex with
  | none => none
  | some magnitude =>
    let avg := magnitude / ((endIndex - startIndex : ℤ) : ℝ)
    let boost := 1 + ((i : ℝ) * (1 / 10))
    some (toInt (avg * 40 * boost))

/-- The loop over buckets with `iters` iterations left, loop variable `i` and
the slice `heights`. -/
noncomputable def heightsLoop (coeffs : List ℂ) : ℕ → ℕ → List ℤ → Option (List ℤ)
  | 0, _, heights => some heights
  | iters + 1, i, heights =>
    match bucketHeight coeffs i with
    | none => none
    | some h => heightsLoop coeffs iters (i + 1) (heights.set i h)

/-- Lines 200-236: the heights computed from the coefficients. -/
noncomputable def analyze (coeffs : List ℂ) : Option (List ℤ) :=
  heightsLoop coeffs barCount 0 (List.replicate barCount 0)

/-- The callback of `listenAudio`.  `fftReal` is the transform `fft.FFTReal`,
`readErr` tells whether `stream.Read()` returned an error, `buffer` is the
content of the sample buffer after the read. -/
noncomputable def listenAudio (fftReal : List ℝ → List ℂ) (readErr : Bool) (buffer : List ℝ) :
    Option Msg :=
  if readErr = true then some (Msg.audioMsg (List.replicate barCount 0))
  else
    match analyze (fftReal buffer) with
    | none => none
    | some heights => some (Msg.audioMsg heights)

/-- The discrete Fourier transform of a real sequence, the function that
`fft.FFTReal` computes: as many coefficients as samples. -/
noncomputable def dft (xs : List ℝ) : List ℂ :=
  (List.range xs.length).map (fun k =>
    ((List.range xs.length).map (fun j =>
      ((xs.getD j 0 : ℝ) : ℂ) *
        Complex.exp (-2 * (Real.pi : ℂ) * Complex.I * ((j * k : ℕ) : ℂ) / ((xs.length : ℕ) : ℂ)))).sum)

/-! ## Dispatcher -/

/-- C2.  When `stream.Read` reports an error, `listenAudio` yields (it does not
fail) the message `audioMsg` with exactly 32 heights, all 0; and `Update`
applied by any model to that message gives a model whose heights are exactly
32 zeros. -/
theorem capture_failure_substitution (fftReal : List ℝ → List ℂ) (buffer : List ℝ) (m : model) :
    listenAudio fftReal true buffer = some (Msg.audioMsg (List.replicate 32 0)) ∧
    (List.replicate 32 (0 : ℤ)).length = 32 ∧
    (∀ h ∈ List.replicate 32 (0 : ℤ), h = 0) ∧
    (Update m (Msg.audioMsg (List.replicate 32 0))).1.heights = List.replicate 32 0 := by
  refine ⟨?_, ?_, ?_, ?_⟩
  · simp [listenAudio, barCount]
  · simp
  · intro h hh
    exact List.eq_of_mem_replicate hh
  · simp [Update]

/-- C7.  The transition table of `Update`, for every model `m`. -/
theorem Update_transition_table (m : model) :
    (∀ w h : ℤ, Update m (Msg.WindowSizeMsg w h) = ({ m with width := w, height := h }, Cmd.nil)) ∧
    (∀ key : String, key ∈ ["q", "ctrl+c", "esc"] → Update m (Msg.KeyMsg key) = (m, Cmd.Quit)) ∧
    (∀ key : String, key ∉ ["q", "ctrl+c", "esc"] → Update m (Msg.KeyMsg key) = (m, Cmd.nil)) ∧
    (∀ hs : List ℤ,
      Update m (Msg.audioMsg hs) = ({ m with heights := hs }, Cmd.listenAudio m.stream m.buffer)) ∧
    (∀ t : String, Update m (Msg.titleMsg t) = ({ m with mediaTitle := t }, Cmd.checkMusic)) ∧
    (∀ t : ℕ, Update m (Msg.tickMsg t) = ({ m with currentTime := t }, Cmd.tickClock)) ∧
    (∀ (c : Cmd) (msg : Msg), Yields c msg →
      isCapture (Update m msg).2 = isCapture c ∧ isTitlePoll (Update m msg).2 = isTitlePoll c ∧
      isClock (Update m msg).2 = isClock c) := by
  refine ⟨?_, ?_, ?_, ?_, ?_, ?_, ?_⟩
  · intro w h
    rfl
  · intro key hk
    have hk2 : key = "q" ∨ key = "ctrl+c" ∨ key = "esc" := by simpa using hk
    simp [Update, hk2]
  · intro key hk
    have hk2 : ¬ (key = "q" ∨ key = "ctrl+c" ∨ key = "esc") := by simpa using hk
    simp only [Update, if_neg hk2]
  · intro hs
    rfl
  · intro t
    rfl
  · intro t
    rfl
  · intro c msg hy
    cases hy <;> simp [Update, isCapture, isTitlePoll, isClock]

/-- Witness for C7 at a concrete model. -/
theorem Update_transition_table_witness :
    Update (initialModel 1 2 0) (Msg.KeyMsg "esc") = (initialModel 1 2 0, Cmd.Quit) ∧
    Update (initialModel 1 2 0) (Msg.KeyMsg "x") = (initialModel 1 2 0, Cmd.nil) ∧
    isCapture (Update (initialModel 1 2 0) (Msg.audioMsg [3, 4])).2 = isCapture (Cmd.listenAudio 1 2) :=
  ⟨(Update_transition_table (initialModel 1 2 0)).2.1 "esc" (by decide),
   (Update_transition_table (initialModel 1 2 0)).2.2.1 "x" (by decide),
   ((Update_transition_table (initialModel 1 2 0)).2.2.2.2.2.2 (Cmd.listenAudio 1 2)
      (Msg.audioMsg [3, 4]) (Yields.audio 1 2 [3, 4])).1⟩

/-- Every reachable state of the loop has exactly one outstanding command of
each source. -/
theorem reachable_counts (s : Loop) (h : Reachable s) :
    s.pending.countP isCapture = 1 ∧ s.pending.countP isTitlePoll = 1 ∧
    s.pending.countP isClock = 1 := by
  induction h with
  | start m => simp [Loop.start, Init, launch, launchAll, isCapture, isTitlePoll, isClock]
  | step s t _ hst ih =>
    cases hst with
    | resolve m before after c msg hy =>
      cases hy <;>
        simp [Update, launch, isCapture, isTitlePoll, isClock, List.countP_append,
          List.countP_cons] at ih ⊢ <;> omega
    | input m pending msg hin =>
      cases msg <;> simp [isInput] at hin
      · simpa [Update, launch] using ih
      · rename_i key
        by_cases hk : key = "q" ∨ key = "ctrl+c" ∨ key = "esc"
        · simpa [Update, hk, launch, List.countP_append, isCapture, isTitlePoll, isClock] using ih
        · simpa [Update, hk, launch] using ih

/-- C8.  In every state the loop reaches from start-up there is at most one
outstanding capture command, at most one outstanding title-poll command and at
most one outstanding clock command. -/
theorem at_most_one_in_flight (s : Loop) (h : Reachable s) :
    s.pending.countP isCapture ≤ 1 ∧ s.pending.countP isTitlePoll ≤ 1 ∧
    s.pending.countP isClock ≤ 1 := by
  obtain ⟨h1, h2, h3⟩ := reachable_counts s h
  omega

/-- Witness for C8: the state after start-up, the first capture having resolved. -/
theorem at_most_one_in_flight_witness :
    Reachable (Loop.mk (Update (initialModel 1 2 0) (Msg.audioMsg [5])).1
      [Cmd.checkMusic, Cmd.tickClock, Cmd.listenAudio 1 2]) ∧
    [Cmd.checkMusic, Cmd.tickClock, Cmd.listenAudio 1 2].countP isCapture ≤ 1 ∧
    [Cmd.checkMusic, Cmd.tickClock, Cmd.listenAudio 1 2].countP isTitlePoll ≤ 1 ∧
    [Cmd.checkMusic, Cmd.tickClock, Cmd.listenAudio 1 2].countP isClock ≤ 1 :=
  have hr : Reachable (Loop.mk (Update (initialModel 1 2 0) (Msg.audioMsg [5])).1
      [Cmd.checkMusic, Cmd.tickClock, Cmd.listenAudio 1 2]) :=
    Reachable.step (Loop.start (initialModel 1 2 0)) _ (Reachable.start _)
      (Step.resolve (initialModel 1 2 0) [] [Cmd.checkMusic, Cmd.tickClock]
        (Cmd.listenAudio 1 2) (Msg.audioMsg [5]) (Yields.audio 1 2 [5]))
  ⟨hr, at_most_one_in_flight _ hr⟩

/-! ## Renderer -/

theorem clampHeight_bounds (h : ℤ) : 0 ≤ clampHeight h ∧ clampHeight h ≤ 15 := by
  simp only [clampHeight, maxHeight]
  constructor <;> split_ifs <;> omega

theorem clampHeight_eq (h : ℤ) : clampHeight h = min (max h 0) 15 := by
  simp only [clampHeight, maxHeight]
  split_ifs <;> omega

/-- On a clamped height the loop body neither indexes the palette out of range
nor repeats a negative number of times, and the bar has as many filled cells as
the height. -/
theorem renderBar_clamped (c : ℤ) (h0 : 0 ≤ c) (h15 : c ≤ 15) :
    ∃ b : Bar,
      (match index colorPalette (colorIndex c), stringsRepeat ['█', '\n'] c with
        | some barColor, some barStr =>
            some { color := barColor, text := String.mk (trimSuffixChar barStr '\n') }
        | _, _ => none) = some b ∧
      (filledCells b : ℤ) = c ∧ index colorPalette (colorIndex c) = some b.color := by
  interval_cases c <;> exact ⟨_, rfl, by decide, by decide⟩

theorem renderBar_spec (h : ℤ) :
    ∃ b : Bar, renderBar h = some b ∧ (filledCells b : ℤ) = clampHeight h ∧
      index colorPalette (colorIndex (clampHeight h)) = some b.color := by
  have hb := clampHeight_bounds h
  exact renderBar_clamped (clampHeight h) hb.1 hb.2

theorem colorIndex_clamped (c : ℤ) (h0 : 0 ≤ c) (h15 : c ≤ 15) :
    scaledIndex c = c * 8 / 15 ∧ colorIndex c = min (c * 8 / 15) 7 ∧
    ((colorPalette.length : ℤ) ≤ scaledIndex c ↔ c = 15) := by
  interval_cases c <;> decide

/-- C6.  For any raw height `h` the bar drawn has `min (max h 0) 15` filled
cells, and its colour is the palette entry of index
`min (floor (clamped * 8 / 15)) 7`, where 8 is the palette size; the bound
check replaces the index exactly when the clamped height is 15. -/
theorem clamp_property (h : ℤ) :
    clampHeight h = min (max h 0) 15 ∧
    (colorPalette.length : ℤ) = 8 ∧
    colorIndex (clampHeight h) = min (clampHeight h * 8 / 15) ((colorPalette.length : ℤ) - 1) ∧
    (scaledIndex (clampHeight h) ≥ (colorPalette.length : ℤ) ↔ clampHeight h = 15) ∧
    ∃ b : Bar, renderBar h = some b ∧ (filledCells b : ℤ) = min (max h 0) 15 ∧
      index colorPalette (min (min (max h 0) 15 * 8 / 15) 7) = some b.color := by
  have hb := clampHeight_bounds h
  have hc := colorIndex_clamped (clampHeight h) hb.1 hb.2
  obtain ⟨b, hb1, hb2, hb3⟩ := renderBar_spec h
  refine ⟨clampHeight_eq h, by decide, ?_, ?_, b, hb1, ?_, ?_⟩
  · rw [hc.2.1]
    rfl
  · exact hc.2.2
  · rw [hb2, clampHeight_eq]
  · rw [← clampHeight_eq, ← hc.2.1]
    exact hb3

theorem foldl_barStep (hs : List ℤ) :
    ∀ (pb rightBars leftBars : List Bar), pb.map some = hs.map renderBar →
      hs.foldl barStep (some (rightBars, leftBars)) =
        some (rightBars ++ pb, pb.reverse ++ leftBars) := by
  induction hs with
  | nil =>
    intro pb r l hpb
    have : pb = [] := by simpa using hpb
    subst this
    simp
  | cons h hs ih =>
    intro pb r l hpb
    cases pb with
    | nil => simp at hpb
    | cons b pb =>
      simp only [List.map_cons, List.cons.injEq] at hpb
      obtain ⟨hb, hpb⟩ := hpb
      have hstep : barStep (some (r, l)) h = some (r ++ [b], [b] ++ l) := by
        unfold barStep
        rw [← hb]
      rw [List.foldl_cons, hstep, ih pb _ _ hpb]
      simp

theorem perBucket_exists (hs : List ℤ) :
    ∃ pb : List Bar, pb.map some = hs.map renderBar := by
  induction hs with
  | nil => exact ⟨[], rfl⟩
  | cons h hs ih =>
    obtain ⟨pb, hpb⟩ := ih
    obtain ⟨b, hb, _⟩ := renderBar_spec h
    exact ⟨b :: pb, by simp [hpb, hb]⟩

/-- C10.  For every heights sequence `hs` of length `n` the bar loop of `View`
ends normally, and the sequence it lays out is the reversed per-bucket bars
followed by the per-bucket bars in order: `2 * n` entries, entry `k` equal to
entry `2 * n - 1 - k`, the bar of bucket `i` at positions `n - 1 - i` and
`n + i`; the bar of bucket `i` has exactly as many filled cells as the clamped
height of `hs[i]`. -/
theorem mirroring (hs : List ℤ) :
    ∃ bars perBucket : List Bar,
      combinedBars hs = some bars ∧
      perBucket.map some = hs.map renderBar ∧
      bars = perBucket.reverse ++ perBucket ∧
      bars.length = 2 * hs.length ∧
      (∀ k, k < 2 * hs.length → bars[k]? = bars[2 * hs.length - 1 - k]?) ∧
      (∀ i, i < hs.length →
        bars[hs.length - 1 - i]? = perBucket[i]? ∧ bars[hs.length + i]? = perBucket[i]?) ∧
      (∀ i, i < hs.length → ∃ b : Bar, perBucket[i]? = some b ∧
        (filledCells b : ℤ) = clampHeight (hs.getD i 0)) := by
  obtain ⟨pb, hpb⟩ := perBucket_exists hs
  have hlen : pb.length = hs.length := by
    have := congrArg List.length hpb
    simpa using this
  have hmirror : ∀ i, i < hs.length →
      (pb.reverse ++ pb)[hs.length - 1 - i]? = pb[i]? ∧ (pb.reverse ++ pb)[hs.length + i]? = pb[i]? := by
    intro i hi
    constructor
    · rw [List.getElem?_append_left (by simp; omega), List.getElem?_reverse (by omega)]
      congr 1
      omega
    · rw [List.getElem?_append_right (by simp; omega)]
      congr 1
      simp
      omega
  refine ⟨pb.reverse ++ pb, pb, ?_, hpb, rfl, ?_, ?_, hmirror, ?_⟩
  · simp [combinedBars, barLoop, foldl_barStep hs pb [] [] hpb]
  · simp
    omega
  · intro k hk
    by_cases hkn : k < hs.length
    · have h1 := (hmirror (hs.length - 1 - k) (by omega)).1
      have h2 := (hmirror (hs.length - 1 - k) (by omega)).2
      have e1 : hs.length - 1 - (hs.length - 1 - k) = k := by omega
      have e2 : hs.length + (hs.length - 1 - k) = 2 * hs.length - 1 - k := by omega
      rw [e1] at h1
      rw [e2] at h2
      rw [h1, h2]
    · have h1 := (hmirror (k - hs.length) (by omega)).1
      have h2 := (hmirror (k - hs.length) (by omega)).2
      have e1 : hs.length - 1 - (k - hs.length) = 2 * hs.length - 1 - k := by omega
      have e2 : hs.length + (k - hs.length) = k := by omega
      rw [e1] at h1
      rw [e2] at h2
      rw [h1, h2]
  · intro i hi
    have hi2 : i < pb.length := by omega
    refine ⟨pb[i], by simp [hi2], ?_⟩
    have h1 : (pb.map some)[i]? = (hs.map renderBar)[i]? := by rw [hpb]
    simp only [List.getElem?_map, List.getElem?_eq_getElem hi2, List.getElem?_eq_getElem hi,
      Option.map_some'] at h1
    obtain ⟨b, hb1, hb2, _⟩ := renderBar_spec hs[i]
    rw [hb1] at h1
    have h3 : pb[i] = b := by simpa using h1
    rw [h3, hb2]
    simp [List.getD_eq_getElem?_getD, hi]

/-! ## Analyser: bucket edges and indices -/

theorem logBase_pos : 0 < logBase := by
  unfold logBase maxFreq minFreq
  apply Real.log_pos
  norm_num

theorem startFreq_pos (i : ℕ) : 0 < startFreq i := by
  unfold startFreq minFreq
  have := Real.exp_pos (logBase * (i : ℝ) / (barCount : ℝ))
  positivity

theorem endFreq_pos (i : ℕ) : 0 < endFreq i := by
  unfold endFreq minFreq
  have := Real.exp_pos (logBase * ((i + 1 : ℕ) : ℝ) / (barCount : ℝ))
  positivity

/-- C5.  With `minFreq = 20`, `maxFreq = 8000`, `barCount = 32` and
`logBase = ln (maxFreq / minFreq)`, the edges
`startFreq i = minFreq * exp (logBase * i / barCount)` and
`endFreq i = minFreq * exp (logBase * (i + 1) / barCount)` satisfy
`startFreq i < endFreq i ≤ startFreq (i + 1)` for every bucket index `i`. -/
theorem bucket_monotonicity (i : ℕ) :
    minFreq = 20 ∧ maxFreq = 8000 ∧ barCount = 32 ∧ logBase = Real.log (maxFreq / minFreq) ∧
    startFreq i = minFreq * Real.exp (logBase * (i : ℝ) / (barCount : ℝ)) ∧
    endFreq i = minFreq * Real.exp (logBase * ((i : ℝ) + 1) / (barCount : ℝ)) ∧
    startFreq i < endFreq i ∧ endFreq i ≤ startFreq (i + 1) := by
  refine ⟨rfl, rfl, rfl, rfl, rfl, ?_, ?_, ?_⟩
  · simp [endFreq]
  · unfold startFreq endFreq
    have hmin : (0 : ℝ) < minFreq := by unfold minFreq; norm_num
    have hbar : (0 : ℝ) < (barCount : ℝ) := by unfold barCount; norm_num
    have hlog := logBase_pos
    apply mul_lt_mul_of_pos_left _ hmin
    apply Real.exp_lt_exp.mpr
    apply div_lt_div_of_pos_right _ hbar
    apply mul_lt_mul_of_pos_left _ hlog
    push_cast
    linarith
  · exact le_of_eq rfl

theorem toInt_nonneg (x : ℝ) (hx : 0 ≤ x) : 0 ≤ toInt x := by
  unfold toInt
  rw [if_pos hx]
  exact Int.floor_nonneg.mpr hx

theorem toInt_zero : toInt 0 = 0 := by
  simp [toInt]

theorem rawIndex_nonneg (freq : ℝ) (n : ℕ) (hf : 0 ≤ freq) : 0 ≤ rawIndex freq n := by
  unfold rawIndex
  apply toInt_nonneg
  positivity

/-- After the three `if` statements the end index exceeds the start index,
whatever the length and the computed indices. -/
theorem clampIndices_lt (n a b : ℤ) : (clampIndices n a b).1 < (clampIndices n a b).2 := by
  simp only [clampIndices]
  split_ifs <;> omega

/-- For a non-empty slice and a non-negative computed start index the final
indices delimit a non-empty range of valid indices. -/
theorem clampIndices_bounds (n a b : ℤ) (hn : 1 ≤ n) (ha : 0 ≤ a) :
    0 ≤ (clampIndices n a b).1 ∧ (clampIndices n a b).1 < (clampIndices n a b).2 ∧
    (clampIndices n a b).2 ≤ n := by
  simp only [clampIndices]
  split_ifs <;> omega

/-- C3.  For any number `n` of coefficients and every bucket index `i`, the
final `endIndex` is strictly greater than the final `startIndex`, so the
divisor `endIndex - startIndex` of the average is at least 1. -/
theorem degenerate_bucket_safety (n i : ℕ) :
    (bucketIndices n i).1 < (bucketIndices n i).2 ∧
    1 ≤ (bucketIndices n i).2 - (bucketIndices n i).1 ∧
    (((bucketIndices n i).2 - (bucketIndices n i).1 : ℤ) : ℝ) ≠ 0 := by
  have h := clampIndices_lt (n : ℤ) (rawIndex (startFreq i) n) (rawIndex (endFreq i) n)
  have h1 : 1 ≤ (bucketIndices n i).2 - (bucketIndices n i).1 := by
    unfold bucketIndices
    omega
  refine ⟨h, h1, ?_⟩
  have h2 : (0 : ℤ) < (bucketIndices n i).2 - (bucketIndices n i).1 := by omega
  exact_mod_cast ne_of_gt h2

theorem bucketIndices_bounds (n i : ℕ) (hn : 1 ≤ n) :
    0 ≤ (bucketIndices n i).1 ∧ (bucketIndices n i).1 < (bucketIndices n i).2 ∧
    (bucketIndices n i).2 ≤ (n : ℤ) := by
  unfold bucketIndices
  apply clampIndices_bounds
  · exact_mod_cast hn
  · exact rawIndex_nonneg _ _ (le_of_lt (startFreq_pos i))

/-! ## Analyser: the averaging loop -/

theorem index_natCast (coeffs : List ℂ) (j : ℕ) : index coeffs (j : ℤ) = coeffs[j]? := by
  unfold index
  have h : ¬ ((j : ℤ) < 0) := by omega
  rw [if_neg h, Int.toNat_ofNat]

/-- When all the indices `j, ..., j + iters - 1` are valid, the loop folds into
the accumulator the magnitudes of exactly the `iters` coefficients from `j` on,
in order, and does not fail. -/
theorem sumLoop_eq {F : Type} (add : F → F → F) (mag : ℂ → F) (coeffs : List ℂ) :
    ∀ (iters j : ℕ) (acc : F), j + iters ≤ coeffs.length →
      sumLoop add mag coeffs iters (j : ℤ) acc =
        some (((coeffs.drop j).take iters).foldl (fun m c => add m (mag c)) acc) := by
  intro iters
  induction iters with
  | zero =>
    intro j acc _
    simp [sumLoop]
  | succ k ih =>
    intro j acc hj
    have hlt : j < coeffs.length := by omega
    have hguard : (j : ℤ) < (coeffs.length : ℤ) := by exact_mod_cast hlt
    have hnext : ((j : ℤ) + 1) = ((j + 1 : ℕ) : ℤ) := by push_cast; rfl
    have hdrop : coeffs.drop j = coeffs[j] :: coeffs.drop (j + 1) := List.drop_eq_getElem_cons hlt
    unfold sumLoop
    rw [if_pos hguard, index_natCast, List.getElem?_eq_getElem hlt]
    simp only
    rw [hnext, ih (j + 1) _ (by omega), hdrop]
    simp only [List.take_succ_cons, List.foldl_cons]

/-- For indices with `0 ≤ s < e ≤ len(coeffs)`: every `j` of `[s, e)` passes the
guard and is read without failure, the slice `coeffs[s:e]` has `e - s` elements
and the loop ends with the fold of their magnitudes. -/
theorem range_sum {F : Type} (add : F → F → F) (mag : ℂ → F) (zero : F) (coeffs : List ℂ)
    (s e : ℤ) (h0 : 0 ≤ s) (hlt : s < e) (hle : e ≤ (coeffs.length : ℤ)) :
    (∀ j : ℤ, s ≤ j → j < e → 0 ≤ j ∧ j < (coeffs.length : ℤ) ∧ ∃ c, index coeffs j = some c) ∧
    ((((coeffs.drop s.toNat).take (e - s).toNat).length : ℕ) : ℤ) = e - s ∧
    sumLoop add mag coeffs (e - s).toNat s zero =
      some (((coeffs.drop s.toNat).take (e - s).toNat).foldl (fun m c => add m (mag c)) zero) := by
  refine ⟨?_, ?_, ?_⟩
  · intro j hsj hje
    have hj0 : 0 ≤ j := le_trans h0 hsj
    have hjn : j < (coeffs.length : ℤ) := lt_of_lt_of_le hje hle
    refine ⟨hj0, hjn, ?_⟩
    have hjn2 : j.toNat < coeffs.length := by omega
    refine ⟨coeffs[j.toNat], ?_⟩
    unfold index
    rw [if_neg (by omega), List.getElem?_eq_getElem hjn2]
  · rw [List.length_take, List.length_drop]
    omega
  · have hs : s = ((s.toNat : ℕ) : ℤ) := (Int.toNat_of_nonneg h0).symm
    have hlen : s.toNat + (e - s).toNat ≤ coeffs.length := by omega
    have h := sumLoop_eq add mag coeffs (e - s).toNat s.toNat zero hlen
    rw [← hs] at h
    exact h

theorem foldl_add_abs (l : List ℂ) :
    ∀ acc : ℝ, l.foldl (fun m c => m + Complex.abs c) acc =
      acc + (l.map (fun c => Complex.abs c)).sum := by
  induction l with
  | nil =>
    intro acc
    simp
  | cons c l ih =>
    intro acc
    rw [List.foldl_cons, ih, List.map_cons, List.sum_cons, add_assoc]

theorem bucketMagnitude_eq (coeffs : List ℂ) (s e : ℤ) (h0 : 0 ≤ s) (hlt : s < e)
    (he : e ≤ (coeffs.length : ℤ)) :
    bucketMagnitude coeffs s e =
      some ((((coeffs.drop s.toNat).take (e - s).toNat).map (fun c => Complex.abs c)).sum) := by
  unfold bucketMagnitude
  rw [(range_sum (fun x y => x + y) (fun c => Complex.abs c) 0 coeffs s e h0 hlt he).2.2,
    foldl_add_abs, zero_add]

theorem bucketHeight_silent (coeffs : List ℂ) (i : ℕ) (hn : 1 ≤ coeffs.length)
    (h0 : ∀ c ∈ coeffs, Complex.abs c = 0) : bucketHeight coeffs i = some 0 := by
  obtain ⟨hs0, hlt, hle⟩ := bucketIndices_bounds coeffs.length i hn
  have hmag := bucketMagnitude_eq coeffs _ _ hs0 hlt hle
  have hsum : (((coeffs.drop (bucketIndices coeffs.length i).1.toNat).take
      ((bucketIndices coeffs.length i).2 - (bucketIndices coeffs.length i).1).toNat).map
        (fun c => Complex.abs c)).sum = 0 := by
    apply List.sum_eq_zero
    intro x hx
    obtain ⟨c, hc, rfl⟩ := List.mem_map.mp hx
    exact h0 c (List.mem_of_mem_drop (List.mem_of_mem_take hc))
  unfold bucketHeight
  simp only [hmag, hsum, zero_div, zero_mul, toInt_zero]

theorem set_replicate_self (n i : ℕ) (a : ℤ) :
    (List.replicate n a).set i a = List.replicate n a := by
  apply List.ext_getElem
  · simp
  · intro k h1 h2
    simp [List.getElem_set]

theorem heightsLoop_silent (coeffs : List ℂ) (h : ∀ i, bucketHeight coeffs i = some 0) :
    ∀ (iters i n : ℕ),
      heightsLoop coeffs iters i (List.replicate n 0) = some (List.replicate n 0) := by
  intro iters
  induction iters with
  | zero =>
    intro i n
    rfl
  | succ k ih =>
    intro i n
    unfold heightsLoop
    simp only [h i, set_replicate_self]
    exact ih (i + 1) n

theorem dft_length (xs : List ℝ) : (dft xs).length = xs.length := by
  simp [dft]

theorem dft_zero (xs : List ℝ) (h : ∀ x ∈ xs, x = 0) : ∀ c ∈ dft xs, Complex.abs c = 0 := by
  intro c hc
  unfold dft at hc
  obtain ⟨k, _, rfl⟩ := List.mem_map.mp hc
  have hsum : ((List.range xs.length).map (fun j =>
      ((xs.getD j 0 : ℝ) : ℂ) *
        Complex.exp (-2 * (Real.pi : ℂ) * Complex.I * ((j * k : ℕ) : ℂ) / ((xs.length : ℕ) : ℂ)))).sum
      = 0 := by
    apply List.sum_eq_zero
    intro y hy
    obtain ⟨j, hj, rfl⟩ := List.mem_map.mp hy
    have hjlt : j < xs.length := List.mem_range.mp hj
    have hx : xs.getD j 0 = 0 := by
      rw [List.getD_eq_getElem _ _ hjlt]
      exact h _ (List.getElem_mem hjlt)
    rw [hx]
    simp
  rw [hsum]
  simp

/-- C1.  Silence: when the read succeeds on a non-empty frame whose samples are
all zero, so that every coefficient of the transform has magnitude 0, the raw
height of every bucket `i` is 0 whatever its boost, and `listenAudio` yields
`barCount` heights all equal to 0.  The transform is any function that returns
at least half as many coefficients as samples and maps an all-zero frame to
coefficients of magnitude 0. -/
theorem silence_property (fftReal : List ℝ → List ℂ) (buffer : List ℝ)
    (hlen : ∀ xs : List ℝ, xs.length ≤ 2 * (fftReal xs).length)
    (hfft : ∀ xs : List ℝ, (∀ x ∈ xs, x = 0) → ∀ c ∈ fftReal xs, Complex.abs c = 0)
    (hne : buffer ≠ []) (hzero : ∀ x ∈ buffer, x = 0) :
    (∀ i : ℕ, bucketHeight (fftReal buffer) i = some 0) ∧
    listenAudio fftReal false buffer = some (Msg.audioMsg (List.replicate barCount 0)) ∧
    (List.replicate barCount (0 : ℤ)).length = barCount := by
  have hpos : 0 < buffer.length := List.length_pos.mpr hne
  have hn : 1 ≤ (fftReal buffer).length := by
    have := hlen buffer
    omega
  have hb : ∀ i : ℕ, bucketHeight (fftReal buffer) i = some 0 :=
    fun i => bucketHeight_silent (fftReal buffer) i hn (hfft buffer hzero)
  refine ⟨hb, ?_, by simp⟩
  unfold listenAudio analyze
  rw [heightsLoop_silent (fftReal buffer) hb]
  simp

/-- Witness for C1: the discrete Fourier transform on a silent frame of
`bufferSize` samples. -/
theorem silence_property_witness :
    List.replicate bufferSize (0 : ℝ) ≠ [] ∧
    (∀ x ∈ List.replicate bufferSize (0 : ℝ), x = 0) ∧
    listenAudio dft false (List.replicate bufferSize 0) =
      some (Msg.audioMsg (List.replicate barCount 0)) :=
  ⟨by decide, fun _ hx => List.eq_of_mem_replicate hx,
    (silence_property dft (List.replicate bufferSize 0)
      (fun xs => by rw [dft_length]; omega) dft_zero (by decide)
      (fun _ hx => List.eq_of_mem_replicate hx)).2.1⟩

/-! ## Title lookup -/

/-- On a platform other than darwin, linux and windows the title is the fixed
label, whatever the lookup outcome passed in. -/
theorem checkMusic_unsupported (goos : String) (err : Bool) (out : String)
    (h : goos ∉ ["darwin", "linux", "windows"]) :
    checkMusic goos err out = Msg.titleMsg "OS Not Supported" := by
  have h2 : ¬ (goos = "darwin" ∨ goos = "linux" ∨ goos = "windows") := by simpa using h
  simp only [checkMusic, if_neg h2]

/-- On a recognised platform a failed lookup, or one whose output has no bytes,
gives the fixed label. -/
theorem checkMusic_no_media (goos : String) (err : Bool) (out : String)
    (h : goos ∈ ["darwin", "linux", "windows"]) (hfail : err = true ∨ out.utf8ByteSize = 0) :
    checkMusic goos err out = Msg.titleMsg "No Media Found" := by
  have h2 : goos = "darwin" ∨ goos = "linux" ∨ goos = "windows" := by simpa using h
  simp only [checkMusic, if_pos h2, if_pos hfail]

/-- C9, evaluated where it fails.  On linux, a successful lookup whose output
is a single newline has a trimmed text that is empty, yet the title delivered
is that empty text and not the label "No Media Found": the emptiness test
`len(out) == 0` runs on the untrimmed output. -/
theorem checkMusic_blank_output :
    "linux" ∈ ["darwin", "linux", "windows"] ∧
    TrimSpace "\n" = "" ∧
    checkMusic "linux" false "\n" = Msg.titleMsg "" ∧
    checkMusic "linux" false "\n" ≠ Msg.titleMsg "No Media Found" := by
  decide

end Musicvisualizer
